import Mathlib

/-!
Verification development for the Element Clone Library
(`element-cloner.ts`): a utility that clones HTML elements with scroll
limits removed, measures their unclipped dimensions, and reports scroll
limit status.

The DOM environment is embedded shallowly:
* an element is a tree of nodes carrying a tag, attributes, an inline
  style map (property name to value, as written by the CSSStyleDeclaration
  setters in the source), intrinsic content sizes, and children;
* the live document is the list of the body's children, each tagged with
  a node identity (modelling JavaScript reference identity of attached
  nodes) plus a fresh-identity counter;
* browser-computed quantities (computed style resolution, scroll/offset
  extents) are modelled from the specification, as marked on their
  definitions.

Operations are the static methods of the `ElementCloner` class, written
as explicit state passing over the document.
-/

namespace ElementCloner

/-- A style map: assignments `property := value` in assignment order, as
performed on a `CSSStyleDeclaration`; assigning a property replaces any
previous assignment to it. -/
abbrev Style := List (String × String)

/-- Assign property `k := v` in a style map (replace-or-append). -/
def styleAssign (s : Style) (k v : String) : Style :=
  s.filter (fun p => p.1 ≠ k) ++ [(k, v)]

/-- Read property `k` from a style map; `none` when never assigned. -/
def styleLookup (s : Style) (k : String) : Option String :=
  (s.find? (fun p => p.1 = k)).map Prod.snd

/-- An HTML element: tag name, attributes, inline style, intrinsic content
width/height (the size its own content would occupy, excluding children),
and child elements. -/
inductive Elem where
  | mk (tag : String) (attrs : List (String × String)) (style : Style)
       (intrinsicW : Nat) (intrinsicH : Nat) (children : List Elem)

def Elem.tag : Elem → String
  | .mk t _ _ _ _ _ => t

def Elem.attrs : Elem → List (String × String)
  | .mk _ a _ _ _ _ => a

def Elem.style : Elem → Style
  | .mk _ _ s _ _ _ => s

def Elem.intrinsicW : Elem → Nat
  | .mk _ _ _ w _ _ => w

def Elem.intrinsicH : Elem → Nat
  | .mk _ _ _ _ h _ => h

def Elem.children : Elem → List Elem
  | .mk _ _ _ _ _ cs => cs

/-- Read an inline style property of an element. -/
def Elem.styleGet (e : Elem) (k : String) : Option String :=
  styleLookup e.style k

/-- Assign an inline style property on an element (root node only), as
`element.style.prop = value` does. -/
def Elem.styleSet : Elem → String → String → Elem
  | .mk t a s w h cs, k, v => .mk t a (styleAssign s k v) w h cs

/-- Read an attribute of an element. -/
def Elem.attrGet (e : Elem) (k : String) : Option String :=
  (e.attrs.find? (fun p => p.1 = k)).map Prod.snd

mutual

/-- `removeScrollLimits` (element-cloner.ts:100-112): set `max-height`
to `unset` and both overflow properties to `visible` on the element,
then recurse into every child. -/
def removeScrollLimits : Elem → Elem
  | .mk t a s w h cs =>
    .mk t a (styleAssign (styleAssign (styleAssign s
        "maxHeight" "unset") "overflowY" "visible") "overflow" "visible")
      w h (removeScrollLimitsList cs)

/-- The `for` loop of `removeScrollLimits` over a child list. -/
def removeScrollLimitsList : List Elem → List Elem
  | [] => []
  | c :: cs => removeScrollLimits c :: removeScrollLimitsList cs

end

mutual

/-- The element itself followed by all its descendants, in pre-order
(document order). -/
def nodesOf : Elem → List Elem
  | .mk t a s w h cs => .mk t a s w h cs :: nodesOfList cs

/-- Pre-order nodes of a forest. -/
def nodesOfList : List Elem → List Elem
  | [] => []
  | c :: cs => nodesOf c ++ nodesOfList cs

end

/-- The live document: the body's children, each attached under a node
identity (modelling JavaScript reference identity), plus the next fresh
identity. An attached node's identity is unique while it is in the
document. -/
structure Doc where
  body : List (Nat × Elem)
  nextId : Nat

/-- Whether some attached body child carries identity `nid`
(`document.body.contains` for the clones this library attaches, which
live directly under the body). -/
def bodyContains (d : Doc) (nid : Nat) : Bool :=
  d.body.any (fun p => p.1 = nid)

/-- Remove the first body child with identity `nid`. -/
def eraseBodyChild : List (Nat × Elem) → Nat → List (Nat × Elem)
  | [], _ => []
  | p :: ps, nid => if p.1 = nid then ps else p :: eraseBodyChild ps nid

/-- `document.body.removeChild`: removes the identified child, or throws
(`none`) when it is not a child of the body. -/
def removeChildById (d : Doc) (nid : Nat) : Option Doc :=
  if bodyContains d nid then some ⟨eraseBodyChild d.body nid, d.nextId⟩
  else none

/-- `document.body.appendChild`: attach an element at the end of the body
under a fresh identity. -/
def appendToBody (d : Doc) (e : Elem) : Doc :=
  ⟨d.body ++ [(d.nextId, e)], d.nextId + 1⟩

/-- `document.getElementById`: the first element in document order whose
`id` attribute equals `s`. -/
def getElementByIdDoc (d : Doc) (s : String) : Option Elem :=
  ((d.body.map (fun p => nodesOf p.2)).flatten).find?
    (fun e => e.attrGet "id" = some s)

/-- A target of a public operation (`ElementTarget = string | HTMLElement`):
a string identifier, or a direct handle which may be null/absent. -/
inductive ElementTarget where
  | byId (s : String)
  | byHandle (e : Option Elem)

/-- Target resolution as done at the head of `cloneElement` and
`checkScrollLimits`: a string is looked up by id, a direct handle is used
as given; `none` means the `Element not found` error is thrown. -/
def resolveTarget (d : Doc) (t : ElementTarget) : Option Elem :=
  match t with
  | .byId s => getElementByIdDoc d s
  | .byHandle e => e

/-- The single error kind: the `Element not found` exception. -/
inductive CloneError where
  | targetNotFound
deriving DecidableEq

/-- Placement values of the `position` option. -/
inductive Placement where
  | offScreen
  | visible
deriving DecidableEq

/-- `CloneOptions`. `position` is three-state to model a JavaScript
record faithfully: `none` = key missing, `some none` = key present with
an undefined value, `some (some p)` = key present with value `p`.
`styles` is the caller style mapping (`none` when absent). -/
structure CloneOptions where
  position : Option (Option Placement)
  styles : Option Style

/-- The positioning branch of `cloneElement` (element-cloner.ts:134-142):
strict comparison of `options.position` against the two placement
strings. -/
def applyPositionOpt (e : Elem) (p : Option (Option Placement)) : Elem :=
  match p with
  | some (some .offScreen) =>
    ((((e.styleSet "position" "absolute").styleSet "left" "-9999px").styleSet
      "top" "0").styleSet "zIndex" "-1")
  | some (some .visible) =>
    ((e.styleSet "position" "relative").styleSet "display" "block")
  | _ => e

/-- `Object.assign(clonedElement.style, options.styles)`: assign every
entry of the mapping, in order. -/
def applyStyleMap (e : Elem) (st : Style) : Elem :=
  st.foldl (fun acc kv => acc.styleSet kv.1 kv.2) e

/-- The `if (options.styles)` guard of `cloneElement`: apply the caller
style mapping when present. -/
def applyStylesOpt (e : Elem) (st : Option Style) : Elem :=
  match st with
  | some st => applyStyleMap e st
  | none => e

/-- `cloneElement` (element-cloner.ts:120-150): resolve the target, deep
clone it, remove scroll limits on the clone, apply the positioning
option, then apply caller styles last. Does not touch the document. -/
def cloneElement (d : Doc) (t : ElementTarget) (options : CloneOptions) :
    Except CloneError Elem :=
  match resolveTarget d t with
  | none => .error .targetNotFound
  | some el =>
    let clonedElement := el
    let c1 := removeScrollLimits clonedElement
    let c2 := applyPositionOpt c1 options.position
    .ok (applyStylesOpt c2 options.styles)

/-- Decimal digit value of a character, when it is a digit. -/
def charDigit? (c : Char) : Option Nat :=
  if c.isDigit then some (c.toNat - 48) else none

/-- Read a decimal digit string, most significant first. -/
def charsToNatAux : List Char → Nat → Option Nat
  | [], acc => some acc
  | c :: cs, acc =>
    match charDigit? c with
    | some dg => charsToNatAux cs (acc * 10 + dg)
    | none => none

/-- A non-empty all-digit character list as a number. -/
def charsToNat? : List Char → Option Nat
  | [] => none
  | c :: cs => charsToNatAux (c :: cs) 0

/-- Parse a pixel length such as `50px`; any other value (`unset`,
`none`, absent, percentages, ...) imposes no bound in this model. -/
def parsePx (s : String) : Option Nat :=
  match s.data.reverse with
  | 'x' :: 'p' :: rest => charsToNat? rest.reverse
  | _ => none

/-- Modelled from the spec: computed style resolution (the effective
style after cascade resolution). The inline value wins when present and
not `unset`; otherwise the property's initial value applies (`none` for
max-height, `visible` for the overflow properties). -/
def computedValue (e : Elem) (k dflt : String) : String :=
  match e.styleGet k with
  | some v => if v = "unset" then dflt else v
  | none => dflt

mutual

/-- Modelled from the spec: the rendered box height (offset extent).
The element's content height — intrinsic content plus its children's
boxes — clipped by an inline pixel max-height bound when one is set. -/
def boxHeight : Elem → Nat
  | .mk t a s w h cs =>
    match parsePx (computedValue (.mk t a s w h cs) "maxHeight" "none") with
    | some b => min (h + boxHeightSum cs) b
    | none => h + boxHeightSum cs

/-- Total rendered box height of a child list. -/
def boxHeightSum : List Elem → Nat
  | [] => 0
  | c :: cs => boxHeight c + boxHeightSum cs

end

/-- Modelled from the spec: `scrollHeight`, the content extent including
un-rendered-but-not-clipped overflow — the element's intrinsic content
plus its children's rendered boxes, not clipped by the element's own
max-height. -/
def scrollHeightOf (e : Elem) : Nat :=
  e.intrinsicH + boxHeightSum e.children

mutual

/-- The unclipped content height: what the content would occupy were no
max-height bound in effect anywhere in the subtree. -/
def unclippedHeight : Elem → Nat
  | .mk _ _ _ _ h cs => h + unclippedHeightSum cs

/-- Total unclipped content height of a child list. -/
def unclippedHeightSum : List Elem → Nat
  | [] => 0
  | c :: cs => unclippedHeight c + unclippedHeightSum cs

end

mutual

/-- Modelled from the spec: the content width extent. The source never
manipulates width constraints, so no width clipping is modelled: scroll
and offset width coincide with the unclipped content width. -/
def contentWidth : Elem → Nat
  | .mk _ _ _ w _ cs => max w (contentWidthMax cs)

/-- Widest member of a child list. -/
def contentWidthMax : List Elem → Nat
  | [] => 0
  | c :: cs => max (contentWidth c) (contentWidthMax cs)

end

/-- `ElementDimensions`: the dimension snapshot. -/
structure ElementDimensions where
  width : Nat
  height : Nat
  offsetWidth : Nat
  offsetHeight : Nat
deriving DecidableEq

/-- The snapshot read from an attached clone: `scrollWidth`,
`scrollHeight`, `offsetWidth`, `offsetHeight`
(element-cloner.ts:175-180 and 193-198). -/
def measureDims (e : Elem) : ElementDimensions :=
  ⟨contentWidth e, scrollHeightOf e, contentWidth e, boxHeight e⟩

/-- `ClonedElementData`: the managed clone handle returned by
`cloneAndAddToDOM` — the live clone node, its attachment identity, the
release closure and the measurement closure. -/
structure ClonedElementData where
  element : Elem
  nodeId : Nat
  remove : Doc → Option Doc
  getDimensions : Unit → ElementDimensions

/-- The object spread `\x7b position: "off-screen", ...options \x7d` of
`cloneAndAddToDOM`: a `position` key present in `options` — even with an
undefined value — overrides the default. -/
def spreadDefault (o : CloneOptions) : CloneOptions :=
  ⟨match o.position with
    | none => some (some .offScreen)
    | some x => some x,
   o.styles⟩

/-- `cloneAndAddToDOM` (element-cloner.ts:158-182): clone with the
off-screen default spread under the caller's options, append the clone
to the body, and return the managed handle. The `remove` closure checks
`document.body.contains` before `removeChild` (`none` would be a thrown
exception). -/
def cloneAndAddToDOM (d : Doc) (t : ElementTarget) (options : CloneOptions) :
    Except CloneError (ClonedElementData × Doc) :=
  match cloneElement d t (spreadDefault options) with
  | .error e => .error e
  | .ok clonedElement =>
    let nid := d.nextId
    .ok (⟨clonedElement, nid,
          fun dd => if bodyContains dd nid then removeChildById dd nid
                    else some dd,
          fun _ => measureDims clonedElement⟩,
         appendToBody d clonedElement)

/-- `getFullDimensions` (element-cloner.ts:189-202): clone with
off-screen placement, append to the body, read the snapshot, remove the
clone again, and return only the snapshot. The final `removeChild`
cannot throw: the clone was appended in the same synchronous step and
nothing yields control in between, so it is still a body child and
removal erases exactly it. -/
def getFullDimensions (d : Doc) (t : ElementTarget) :
    Except CloneError (ElementDimensions × Doc) :=
  match cloneElement d t ⟨some (some .offScreen), none⟩ with
  | .error e => .error e
  | .ok clonedElement =>
    let d1 := appendToBody d clonedElement
    let dims := measureDims clonedElement
    .ok (dims, ⟨eraseBodyChild d1.body d.nextId, d1.nextId⟩)

/-- `ScrollLimitInfo`: the scroll-limit report. -/
structure ScrollLimitInfo where
  hasMaxHeight : Bool
  hasOverflow : Bool
  hasOverflowY : Bool
  maxHeight : String
  overflow : String
  overflowY : String
deriving DecidableEq

/-- `checkScrollLimits` (element-cloner.ts:209-226): resolve the target,
read its computed style, and report booleans alongside the raw values.
The unchanged document is threaded through to state read-onlyness. -/
def checkScrollLimits (d : Doc) (t : ElementTarget) :
    Except CloneError (ScrollLimitInfo × Doc) :=
  match resolveTarget d t with
  | none => .error .targetNotFound
  | some el =>
    let mh := computedValue el "maxHeight" "none"
    let ov := computedValue el "overflow" "visible"
    let ovY := computedValue el "overflowY" "visible"
    .ok (⟨mh != "none", ov != "visible", ovY != "visible", mh, ov, ovY⟩, d)

/-- A predicate holding at a node and, recursively, at every descendant. -/
inductive AllNodes (P : Elem → Prop) : Elem → Prop where
  | mk (t : String) (a : List (String × String)) (s : Style) (w h : Nat)
      (cs : List Elem) :
      P (.mk t a s w h cs) → (∀ c ∈ cs, AllNodes P c) →
      AllNodes P (.mk t a s w h cs)

/-- A node whose inline style has max-height unconstrained (`unset`) and
both overflow axes fully `visible`. -/
def normalizedNode (e : Elem) : Prop :=
  e.styleGet "maxHeight" = some "unset" ∧
  e.styleGet "overflow" = some "visible" ∧
  e.styleGet "overflowY" = some "visible"

/-- Two elements that agree on tag, attributes, intrinsic content, the
shape and order of their subtrees, and — at every node — on every style
property other than the three scroll-limit properties. -/
inductive OnlyScrollStyleChanges : Elem → Elem → Prop where
  | mk (t : String) (a : List (String × String)) (s s' : Style) (w h : Nat)
      (cs cs' : List Elem) :
      (∀ k, k ≠ "maxHeight" → k ≠ "overflow" → k ≠ "overflowY" →
        styleLookup s' k = styleLookup s k) →
      List.Forall₂ OnlyScrollStyleChanges cs cs' →
      OnlyScrollStyleChanges (.mk t a s w h cs) (.mk t a s' w h cs')

/-- Off-screen placement styles: removed from layout flow, translated
outside the viewport, stacked behind content. -/
def offScreenStyled (e : Elem) : Prop :=
  e.styleGet "position" = some "absolute" ∧
  e.styleGet "left" = some "-9999px" ∧
  e.styleGet "top" = some "0" ∧
  e.styleGet "zIndex" = some "-1"

/-- Caller styles that do not touch the placement properties. -/
def noPlacementKeys : Option Style → Prop
  | none => True
  | some st => ∀ p ∈ st,
      p.1 ∉ (["position", "left", "top", "zIndex", "display"] : List String)

/-- A well-formed document: every attached identity is below the fresh
counter (so appending really attaches under a fresh identity). -/
def validDoc (d : Doc) : Prop := ∀ p ∈ d.body, p.1 < d.nextId

/-- A scroll-limited element (glossary): a bounded max-height combined
with non-visible overflow. -/
def scrollLimited (e : Elem) : Prop :=
  (parsePx (computedValue e "maxHeight" "none")).isSome ∧
  computedValue e "overflow" "visible" ≠ "visible"

/-! Concrete sample data used by the witness theorems. -/

/-- A small concrete element with no id attribute. -/
def elSimple : Elem := .mk "div" [] [("color", "red")] 1 2 []

/-- A one-element document containing `elSimple` under identity 0. -/
def docSimple : Doc := ⟨[(0, elSimple)], 1⟩

/-- The clone produced from `elSimple` with off-screen placement. -/
def cloneSimple : Elem :=
  applyPositionOpt (removeScrollLimits elSimple) (some (some .offScreen))

/-- The handle `cloneAndAddToDOM ⟨[], 0⟩ (.byHandle (some elSimple)) ⟨none, none⟩`
returns. -/
def dataSimple : ClonedElementData :=
  ⟨cloneSimple, 0,
   fun dd => if bodyContains dd 0 then removeChildById dd 0 else some dd,
   fun _ => measureDims cloneSimple⟩

/-- The document after that attachment. -/
def docAfterSimple : Doc := ⟨[(0, cloneSimple)], 1⟩

/-- A concrete element with inline `overflow:hidden; max-height:100px`
and an id attribute. -/
def elBox : Elem :=
  .mk "div" [("id", "box")] [("overflow", "hidden"), ("maxHeight", "100px")]
    0 0 []

/-- A document holding `elBox`. -/
def docBox : Doc := ⟨[(3, elBox)], 4⟩

/-- The empty document. -/
def docEmpty : Doc := ⟨[], 0⟩

/-- The handle returned by `cloneAndAddToDOM` for `elSimple` with an
explicitly undefined `position` option: no placement styles applied. -/
def dataNoPlacement : ClonedElementData :=
  ⟨removeScrollLimits elSimple, 0,
   fun dd => if bodyContains dd 0 then removeChildById dd 0 else some dd,
   fun _ => measureDims (removeScrollLimits elSimple)⟩

/-- A scroll-limited element: max-height 50px, overflow hidden, with a
child carrying 500px of content. -/
def elLimited : Elem :=
  .mk "div" [] [("maxHeight", "50px"), ("overflow", "hidden")] 0 0
    [.mk "p" [] [] 0 500 []]

/-- A document holding `elLimited`. -/
def docLimited : Doc := ⟨[(0, elLimited)], 1⟩

/-- The clone `getFullDimensions docLimited` builds. -/
def cloneLimited : Elem :=
  applyPositionOpt (removeScrollLimits elLimited) (some (some .offScreen))

end ElementCloner

namespace ElementCloner

/-- Structural induction principle for `Elem` exposing the children via
membership. -/
theorem Elem.inductionOn {P : Elem → Prop}
    (step : ∀ t a s w h cs, (∀ c ∈ cs, P c) → P (.mk t a s w h cs)) :
    ∀ e, P e
  | .mk t a s w h cs =>
    step t a s w h cs (fun c _hc => Elem.inductionOn step c)
decreasing_by
  have := List.sizeOf_lt_of_mem _hc
  simp only [Elem.mk.sizeOf_spec]
  omega

theorem removeScrollLimitsList_eq_map (cs : List Elem) :
    removeScrollLimitsList cs = cs.map removeScrollLimits := by
  induction cs with
  | nil => rfl
  | cons c cs ih => simp [removeScrollLimitsList, ih]

theorem removeScrollLimits_mk (t : String) (a : List (String × String))
    (s : Style) (w h : Nat) (cs : List Elem) :
    removeScrollLimits (.mk t a s w h cs) =
      .mk t a (styleAssign (styleAssign (styleAssign s
        "maxHeight" "unset") "overflowY" "visible") "overflow" "visible")
        w h (cs.map removeScrollLimits) := by
  rw [← removeScrollLimitsList_eq_map]
  rfl

theorem boxHeightSum_eq_map (cs : List Elem) :
    boxHeightSum cs = (cs.map boxHeight).sum := by
  induction cs with
  | nil => rfl
  | cons c cs ih => simp [boxHeightSum, ih]

theorem boxHeight_mk (t : String) (a : List (String × String)) (s : Style)
    (w h : Nat) (cs : List Elem) :
    boxHeight (.mk t a s w h cs) =
      match parsePx (computedValue (.mk t a s w h cs) "maxHeight" "none") with
      | some b => min (h + (cs.map boxHeight).sum) b
      | none => h + (cs.map boxHeight).sum := by
  rw [← boxHeightSum_eq_map]
  rfl

theorem unclippedHeightSum_eq_map (cs : List Elem) :
    unclippedHeightSum cs = (cs.map unclippedHeight).sum := by
  induction cs with
  | nil => rfl
  | cons c cs ih => simp [unclippedHeightSum, ih]

theorem unclippedHeight_mk (t : String) (a : List (String × String))
    (s : Style) (w h : Nat) (cs : List Elem) :
    unclippedHeight (.mk t a s w h cs) = h + (cs.map unclippedHeight).sum := by
  rw [← unclippedHeightSum_eq_map]
  rfl

theorem styleLookup_nil (k : String) : styleLookup ([] : Style) k = none := rfl

theorem styleLookup_cons (p : String × String) (s : Style) (k : String) :
    styleLookup (p :: s) k = if p.1 = k then some p.2 else styleLookup s k := by
  by_cases hp : p.1 = k <;> simp [styleLookup, List.find?_cons, hp]

theorem styleAssign_cons (p : String × String) (s : Style) (k v : String) :
    styleAssign (p :: s) k v =
      if p.1 = k then styleAssign s k v else p :: styleAssign s k v := by
  by_cases hp : p.1 = k <;> simp [styleAssign, List.filter_cons, hp]

theorem styleLookup_assign_self (s : Style) (k v : String) :
    styleLookup (styleAssign s k v) k = some v := by
  induction s with
  | nil => simp [styleAssign, styleLookup_cons, styleLookup_nil]
  | cons p s ih =>
    rw [styleAssign_cons]
    by_cases hp : p.1 = k
    · simpa [hp] using ih
    · rw [if_neg hp, styleLookup_cons, if_neg hp]
      exact ih

theorem styleLookup_assign_other (s : Style) (k v k' : String) (hk : k' ≠ k) :
    styleLookup (styleAssign s k v) k' = styleLookup s k' := by
  have hk' : ¬ k = k' := fun h => hk h.symm
  induction s with
  | nil => simp [styleAssign, styleLookup_cons, styleLookup_nil, hk']
  | cons p s ih =>
    rw [styleAssign_cons]
    by_cases hp : p.1 = k
    · have hp' : ¬ p.1 = k' := by rw [hp]; exact hk'
      rw [if_pos hp, styleLookup_cons, if_neg hp', ih]
    · rw [if_neg hp, styleLookup_cons, styleLookup_cons]
      by_cases hq : p.1 = k'
      · rw [if_pos hq, if_pos hq]
      · rw [if_neg hq, if_neg hq, ih]

theorem AllNodes.self {P : Elem → Prop} {e : Elem} (h : AllNodes P e) :
    P e := by
  cases h with
  | mk t a s w hh cs hp _ => exact hp

/-- C1: after `removeScrollLimits e`, the element and every descendant
(recursively, with no depth limit) have inline max-height set to the
unconstrained value `unset`, and both the general and the vertical
overflow property set to `visible`. -/
theorem removeScrollLimits_normalizes_all_nodes (e : Elem) :
    AllNodes normalizedNode (removeScrollLimits e) := by
  induction e using Elem.inductionOn with
  | step t a s w h cs ih =>
    rw [removeScrollLimits_mk]
    refine AllNodes.mk _ _ _ _ _ _ ?_ ?_
    · simp only [normalizedNode, Elem.styleGet, Elem.style]
      refine ⟨?_, ?_, ?_⟩
      · show styleLookup _ "maxHeight" = some "unset"
        rw [styleLookup_assign_other _ _ _ _ (by decide),
            styleLookup_assign_other _ _ _ _ (by decide),
            styleLookup_assign_self]
      · show styleLookup _ "overflow" = some "visible"
        rw [styleLookup_assign_self]
      · show styleLookup _ "overflowY" = some "visible"
        rw [styleLookup_assign_other _ _ _ _ (by decide),
            styleLookup_assign_self]
    · intro c hc
      rcases List.mem_map.mp hc with ⟨c0, hc0, rfl⟩
      exact ih c0 hc0

/-- C2: when the target does not resolve — a string identifier matching
no live element, or a null/absent direct handle — each of the four
public operations fails with the TargetNotFound error; none of them
returns a document, so no DOM mutation (and no partial attachment
state) occurs. -/
theorem unresolvable_target_fails_every_op (d : Doc) (t : ElementTarget)
    (o : CloneOptions) (h : resolveTarget d t = none) :
    cloneElement d t o = .error .targetNotFound ∧
    cloneAndAddToDOM d t o = .error .targetNotFound ∧
    getFullDimensions d t = .error .targetNotFound ∧
    checkScrollLimits d t = .error .targetNotFound := by
  refine ⟨?_, ?_, ?_, ?_⟩ <;>
    simp [cloneElement, cloneAndAddToDOM, getFullDimensions,
      checkScrollLimits, h]

theorem unresolvable_target_fails_every_op_witness :
    cloneElement docSimple (.byId "nonexistent-id") ⟨none, none⟩ =
      .error .targetNotFound ∧
    cloneAndAddToDOM docSimple (.byId "nonexistent-id") ⟨none, none⟩ =
      .error .targetNotFound ∧
    getFullDimensions docSimple (.byId "nonexistent-id") =
      .error .targetNotFound ∧
    checkScrollLimits docSimple (.byId "nonexistent-id") =
      .error .targetNotFound :=
  unresolvable_target_fails_every_op docSimple (.byId "nonexistent-id")
    ⟨none, none⟩ rfl

/-- C6: for every resolvable target, `checkScrollLimits` returns a
report whose booleans are exactly consistent with the raw computed
values it also returns — `hasMaxHeight` iff the computed max-height is
not `none`, `hasOverflow` / `hasOverflowY` iff the computed overflow /
overflow-y is not `visible` — the raw string fields are those computed
values, and the document is returned unchanged (read-only). -/
theorem checkScrollLimits_report_consistent (d : Doc) (t : ElementTarget)
    (el : Elem) (info : ScrollLimitInfo) (d' : Doc)
    (hres : resolveTarget d t = some el)
    (h : checkScrollLimits d t = .ok (info, d')) :
    (info.hasMaxHeight = true ↔ info.maxHeight ≠ "none") ∧
    (info.hasOverflow = true ↔ info.overflow ≠ "visible") ∧
    (info.hasOverflowY = true ↔ info.overflowY ≠ "visible") ∧
    info.maxHeight = computedValue el "maxHeight" "none" ∧
    info.overflow = computedValue el "overflow" "visible" ∧
    info.overflowY = computedValue el "overflowY" "visible" ∧
    d' = d := by
  rw [checkScrollLimits, hres] at h
  have h' := h
  simp only [Except.ok.injEq, Prod.mk.injEq] at h'
  obtain ⟨hinfo, hd⟩ := h'
  subst hinfo
  subst hd
  refine ⟨?_, ?_, ?_, rfl, rfl, rfl, rfl⟩ <;> simp [bne_iff_ne]

theorem checkScrollLimits_report_consistent_witness :
    ((⟨true, true, false, "100px", "hidden", "visible"⟩ :
        ScrollLimitInfo).hasMaxHeight = true ↔
      (⟨true, true, false, "100px", "hidden", "visible"⟩ :
        ScrollLimitInfo).maxHeight ≠ "none") ∧
    ((⟨true, true, false, "100px", "hidden", "visible"⟩ :
        ScrollLimitInfo).hasOverflow = true ↔
      (⟨true, true, false, "100px", "hidden", "visible"⟩ :
        ScrollLimitInfo).overflow ≠ "visible") ∧
    ((⟨true, true, false, "100px", "hidden", "visible"⟩ :
        ScrollLimitInfo).hasOverflowY = true ↔
      (⟨true, true, false, "100px", "hidden", "visible"⟩ :
        ScrollLimitInfo).overflowY ≠ "visible") ∧
    (⟨true, true, false, "100px", "hidden", "visible"⟩ :
        ScrollLimitInfo).maxHeight = computedValue elBox "maxHeight" "none" ∧
    (⟨true, true, false, "100px", "hidden", "visible"⟩ :
        ScrollLimitInfo).overflow = computedValue elBox "overflow" "visible" ∧
    (⟨true, true, false, "100px", "hidden", "visible"⟩ :
        ScrollLimitInfo).overflowY =
      computedValue elBox "overflowY" "visible" ∧
    docBox = docBox :=
  checkScrollLimits_report_consistent docBox (.byId "box") elBox
    ⟨true, true, false, "100px", "hidden", "visible"⟩ docBox rfl rfl

theorem eraseBodyChild_append_fresh (l : List (Nat × Elem)) (nid : Nat)
    (e : Elem) (h : ∀ p ∈ l, p.1 ≠ nid) :
    eraseBodyChild (l ++ [(nid, e)]) nid = l := by
  induction l with
  | nil => simp [eraseBodyChild]
  | cons p ps ih =>
    have hp : p.1 ≠ nid := h p (by simp)
    show (if p.1 = nid then ps ++ [(nid, e)]
          else p :: eraseBodyChild (ps ++ [(nid, e)]) nid) = p :: ps
    rw [if_neg hp, ih (fun q hq => h q (by simp [hq]))]

/-- C5: on success, `getFullDimensions` leaves the document body's
children exactly as they were before the call: the clone it attaches is
detached again before returning, leaving no residual node. -/
theorem getFullDimensions_leaves_no_residue (d : Doc) (t : ElementTarget)
    (dims : ElementDimensions) (d' : Doc) (hv : validDoc d)
    (h : getFullDimensions d t = .ok (dims, d')) :
    d'.body = d.body := by
  rw [getFullDimensions] at h
  cases hc : cloneElement d t ⟨some (some .offScreen), none⟩ with
  | error e => rw [hc] at h; exact absurd h (by simp)
  | ok c =>
    rw [hc] at h
    simp only [Except.ok.injEq, Prod.mk.injEq] at h
    obtain ⟨-, hd⟩ := h
    subst hd
    show eraseBodyChild (appendToBody d c).body d.nextId = d.body
    simp only [appendToBody]
    exact eraseBodyChild_append_fresh d.body d.nextId c
      (fun p hp => Nat.ne_of_lt (hv p hp))

theorem getFullDimensions_leaves_no_residue_witness :
    (⟨eraseBodyChild (appendToBody docSimple cloneSimple).body
        docSimple.nextId, docSimple.nextId + 1⟩ : Doc).body =
      docSimple.body :=
  getFullDimensions_leaves_no_residue docSimple
    (.byHandle (some elSimple)) (measureDims cloneSimple) _
    (by intro p hp; simp [docSimple] at hp; simp [hp, docSimple]) rfl

theorem Elem.styleGet_styleSet_self (e : Elem) (k v : String) :
    (e.styleSet k v).styleGet k = some v := by
  cases e with
  | mk t a s w h cs =>
    simp [Elem.styleSet, Elem.styleGet, Elem.style, styleLookup_assign_self]

theorem Elem.styleGet_styleSet_other (e : Elem) (k v k' : String)
    (hk : k' ≠ k) : (e.styleSet k v).styleGet k' = e.styleGet k' := by
  cases e with
  | mk t a s w h cs =>
    simp [Elem.styleSet, Elem.styleGet, Elem.style,
      styleLookup_assign_other _ _ _ _ hk]

theorem applyStyleMap_styleGet_of_notkey (st : Style) (e : Elem) (k : String)
    (h : ∀ p ∈ st, p.1 ≠ k) :
    (applyStyleMap e st).styleGet k = e.styleGet k := by
  induction st generalizing e with
  | nil => rfl
  | cons q st ih =>
    have hq : q.1 ≠ k := h q (by simp)
    show (applyStyleMap (e.styleSet q.1 q.2) st).styleGet k = e.styleGet k
    rw [ih (e.styleSet q.1 q.2) (fun p hp => h p (by simp [hp])),
      Elem.styleGet_styleSet_other _ _ _ _ (fun hkk => hq hkk.symm)]

theorem applyStyleMap_styleGet_last (st : Style) :
    ∀ (e : Elem) (k v : String), (st.map Prod.fst).Nodup → (k, v) ∈ st →
      (applyStyleMap e st).styleGet k = some v := by
  induction st with
  | nil => intro e k v _ hm; simp at hm
  | cons q st ih =>
    intro e k v hnd hm
    simp only [List.map_cons, List.nodup_cons] at hnd
    rcases List.mem_cons.mp hm with hq | hq
    · subst hq
      show (applyStyleMap (e.styleSet k v) st).styleGet k = some v
      rw [applyStyleMap_styleGet_of_notkey st _ k
          (fun p hp hpk => hnd.1 (List.mem_map.mpr ⟨p, hp, hpk⟩)),
        Elem.styleGet_styleSet_self]
    · show (applyStyleMap (e.styleSet q.1 q.2) st).styleGet k = some v
      exact ih _ k v hnd.2 hq

/-- C4: caller-supplied styles are applied last in `cloneElement`, after
normalization and after placement, so every property of `options.styles`
has its caller-supplied value as the final value on the returned clone
— including properties written by normalization (max-height, overflow,
overflow-y) or by placement (position, left, top, z-index, display). -/
theorem cloneElement_caller_styles_final (d : Doc) (t : ElementTarget)
    (pos : Option (Option Placement)) (st : Style) (k v : String) (c : Elem)
    (hnd : (st.map Prod.fst).Nodup) (hm : (k, v) ∈ st)
    (h : cloneElement d t ⟨pos, some st⟩ = .ok c) :
    c.styleGet k = some v := by
  cases hr : resolveTarget d t with
  | none => rw [cloneElement, hr] at h; exact absurd h (by simp)
  | some el =>
    rw [cloneElement, hr] at h
    simp only [Except.ok.injEq] at h
    subst h
    exact applyStyleMap_styleGet_last st _ k v hnd hm

theorem cloneElement_caller_styles_final_witness :
    (applyStyleMap
      (applyPositionOpt (removeScrollLimits elSimple) (some (some .offScreen)))
      [("overflow", "hidden")]).styleGet "overflow" = some "hidden" :=
  cloneElement_caller_styles_final docSimple (.byHandle (some elSimple))
    (some (some .offScreen)) [("overflow", "hidden")] "overflow" "hidden" _
    (by decide) (by decide) rfl

theorem bodyContains_eq_false_iff (d : Doc) (nid : Nat) :
    bodyContains d nid = false ↔ ∀ p ∈ d.body, p.1 ≠ nid := by
  simp [bodyContains]

theorem eraseBodyChild_no_id (l : List (Nat × Elem)) (nid : Nat)
    (hnd : (l.map Prod.fst).Nodup) :
    ∀ p ∈ eraseBodyChild l nid, p.1 ≠ nid := by
  induction l with
  | nil => intro p hp; simp [eraseBodyChild] at hp
  | cons q qs ih =>
    simp only [List.map_cons, List.nodup_cons] at hnd
    intro p hp
    by_cases hq : q.1 = nid
    · rw [eraseBodyChild, if_pos hq] at hp
      intro hpk
      exact hnd.1 (hq ▸ hpk ▸ List.mem_map_of_mem Prod.fst hp)
    · rw [eraseBodyChild, if_neg hq] at hp
      rcases List.mem_cons.mp hp with rfl | hp
      · exact hq
      · exact ih hnd.2 p hp

/-- C3: the `remove` operation of every handle returned by
`cloneAndAddToDOM` never throws, removes the clone from the document iff
the clone is still contained in it, and is idempotent: applying it twice
yields exactly the state of applying it once, including when the clone
was already removed externally. -/
theorem cloneAndAddToDOM_remove_idempotent (d : Doc) (t : ElementTarget)
    (o : CloneOptions) (data : ClonedElementData) (d₂ : Doc)
    (h : cloneAndAddToDOM d t o = .ok (data, d₂)) (dd : Doc)
    (hnd : (dd.body.map Prod.fst).Nodup) :
    (data.remove dd).isSome = true ∧
    (bodyContains dd data.nodeId = true →
      data.remove dd =
        some ⟨eraseBodyChild dd.body data.nodeId, dd.nextId⟩) ∧
    (bodyContains dd data.nodeId = false → data.remove dd = some dd) ∧
    (data.remove dd).bind (fun d3 => data.remove d3) = data.remove dd := by
  cases hc : cloneElement d t (spreadDefault o) with
  | error e => rw [cloneAndAddToDOM, hc] at h; exact absurd h (by simp)
  | ok c =>
    rw [cloneAndAddToDOM, hc] at h
    simp only [Except.ok.injEq, Prod.mk.injEq] at h
    obtain ⟨hdata, -⟩ := h
    subst hdata
    simp only [ClonedElementData.remove, ClonedElementData.nodeId]
    by_cases hb : bodyContains dd d.nextId = true
    · have hrm : removeChildById dd d.nextId =
          some ⟨eraseBodyChild dd.body d.nextId, dd.nextId⟩ := by
        rw [removeChildById, if_pos hb]
      have hb2 : bodyContains
          (⟨eraseBodyChild dd.body d.nextId, dd.nextId⟩ : Doc)
          d.nextId = false :=
        (bodyContains_eq_false_iff _ _).mpr
          (eraseBodyChild_no_id dd.body d.nextId hnd)
      refine ⟨?_, ?_, ?_, ?_⟩
      · simp [hb, hrm]
      · intro _; simp [hb, hrm]
      · intro hfalse; rw [hb] at hfalse; exact absurd hfalse (by simp)
      · simp [hb, hrm, hb2]
    · have hb' : bodyContains dd d.nextId = false := by
        simpa using hb
      refine ⟨?_, ?_, ?_, ?_⟩
      · simp [hb']
      · intro htrue; rw [hb'] at htrue; exact absurd htrue (by simp)
      · intro _; simp [hb']
      · simp [hb']

theorem cloneAndAddToDOM_remove_idempotent_witness :
    (dataSimple.remove docAfterSimple).isSome = true ∧
    (bodyContains docAfterSimple dataSimple.nodeId = true →
      dataSimple.remove docAfterSimple =
        some ⟨eraseBodyChild docAfterSimple.body dataSimple.nodeId,
              docAfterSimple.nextId⟩) ∧
    (bodyContains docAfterSimple dataSimple.nodeId = false →
      dataSimple.remove docAfterSimple = some docAfterSimple) ∧
    (dataSimple.remove docAfterSimple).bind
        (fun d3 => dataSimple.remove d3) =
      dataSimple.remove docAfterSimple :=
  cloneAndAddToDOM_remove_idempotent docEmpty (.byHandle (some elSimple))
    ⟨none, none⟩ dataSimple docAfterSimple rfl docAfterSimple (by decide)

theorem applyStylesOpt_styleGet_of_noPlacement (os : Option Style) (e : Elem)
    (k : String)
    (hk : k ∈ (["position", "left", "top", "zIndex", "display"] : List String))
    (h : noPlacementKeys os) :
    (applyStylesOpt e os).styleGet k = e.styleGet k := by
  cases os with
  | none => rfl
  | some st =>
    exact applyStyleMap_styleGet_of_notkey st e k
      (fun p hp hpk => h p hp (hpk ▸ hk))

theorem offScreenStyled_applyPositionOpt (e : Elem) :
    offScreenStyled (applyPositionOpt e (some (some .offScreen))) := by
  show offScreenStyled
    ((((e.styleSet "position" "absolute").styleSet "left" "-9999px").styleSet
      "top" "0").styleSet "zIndex" "-1")
  refine ⟨?_, ?_, ?_, ?_⟩
  · rw [Elem.styleGet_styleSet_other _ _ _ _ (by decide),
      Elem.styleGet_styleSet_other _ _ _ _ (by decide),
      Elem.styleGet_styleSet_other _ _ _ _ (by decide),
      Elem.styleGet_styleSet_self]
  · rw [Elem.styleGet_styleSet_other _ _ _ _ (by decide),
      Elem.styleGet_styleSet_other _ _ _ _ (by decide),
      Elem.styleGet_styleSet_self]
  · rw [Elem.styleGet_styleSet_other _ _ _ _ (by decide),
      Elem.styleGet_styleSet_self]
  · rw [Elem.styleGet_styleSet_self]

/-- C8: `cloneAndAddToDOM` applies off-screen placement by default —
when the caller's options carry no `position` key (and their styles do
not touch the placement properties), the clone inserted into the body
carries `position:absolute`, `left:-9999px`, `top:0`, `z-index:-1` and
is a child of the body; a caller-supplied `position` value (`visible`)
overrides the default. -/
theorem cloneAndAddToDOM_offscreen_default :
    (∀ (d : Doc) (t : ElementTarget) (o : CloneOptions)
      (data : ClonedElementData) (d₂ : Doc), o.position = none →
      noPlacementKeys o.styles →
      cloneAndAddToDOM d t o = .ok (data, d₂) →
      offScreenStyled data.element ∧
      data.element ∈ d₂.body.map Prod.snd) ∧
    (∀ (d : Doc) (t : ElementTarget) (o : CloneOptions)
      (data : ClonedElementData) (d₂ : Doc),
      o.position = some (some .visible) → noPlacementKeys o.styles →
      cloneAndAddToDOM d t o = .ok (data, d₂) →
      data.element.styleGet "position" = some "relative" ∧
      data.element.styleGet "display" = some "block") := by
  constructor
  · intro d t o data d₂ hpos hns h
    cases hr : resolveTarget d t with
    | none =>
      rw [cloneAndAddToDOM, cloneElement, hr] at h
      exact absurd h (by simp)
    | some el =>
      have hce : cloneElement d t (spreadDefault o) =
          .ok (applyStylesOpt (applyPositionOpt (removeScrollLimits el)
            (spreadDefault o).position) o.styles) := by
        rw [cloneElement, hr]; exact rfl
      have hsp : (spreadDefault o).position = some (some .offScreen) := by
        simp [spreadDefault, hpos]
      rw [hsp] at hce
      rw [cloneAndAddToDOM, hce] at h
      simp only [Except.ok.injEq, Prod.mk.injEq] at h
      obtain ⟨hdata, hd2⟩ := h
      subst hdata
      subst hd2
      constructor
      · simp only [ClonedElementData.element]
        have hos := offScreenStyled_applyPositionOpt (removeScrollLimits el)
        exact ⟨by rw [applyStylesOpt_styleGet_of_noPlacement _ _ _
                  (by decide) hns]; exact hos.1,
               by rw [applyStylesOpt_styleGet_of_noPlacement _ _ _
                  (by decide) hns]; exact hos.2.1,
               by rw [applyStylesOpt_styleGet_of_noPlacement _ _ _
                  (by decide) hns]; exact hos.2.2.1,
               by rw [applyStylesOpt_styleGet_of_noPlacement _ _ _
                  (by decide) hns]; exact hos.2.2.2⟩
      · simp [ClonedElementData.element, appendToBody]
  · intro d t o data d₂ hpos hns h
    cases hr : resolveTarget d t with
    | none =>
      rw [cloneAndAddToDOM, cloneElement, hr] at h
      exact absurd h (by simp)
    | some el =>
      have hce : cloneElement d t (spreadDefault o) =
          .ok (applyStylesOpt (applyPositionOpt (removeScrollLimits el)
            (spreadDefault o).position) o.styles) := by
        rw [cloneElement, hr]; exact rfl
      have hsp : (spreadDefault o).position = some (some .visible) := by
        simp [spreadDefault, hpos]
      rw [hsp] at hce
      rw [cloneAndAddToDOM, hce] at h
      simp only [Except.ok.injEq, Prod.mk.injEq] at h
      obtain ⟨hdata, -⟩ := h
      subst hdata
      simp only [ClonedElementData.element]
      have hvis : applyPositionOpt (removeScrollLimits el)
          (some (some .visible)) =
          (((removeScrollLimits el).styleSet "position" "relative").styleSet
            "display" "block") := rfl
      constructor
      · rw [applyStylesOpt_styleGet_of_noPlacement _ _ _ (by decide) hns,
          hvis, Elem.styleGet_styleSet_other _ _ _ _ (by decide),
          Elem.styleGet_styleSet_self]
      · rw [applyStylesOpt_styleGet_of_noPlacement _ _ _ (by decide) hns,
          hvis, Elem.styleGet_styleSet_self]

theorem cloneAndAddToDOM_offscreen_default_witness :
    (offScreenStyled dataSimple.element ∧
      dataSimple.element ∈ docAfterSimple.body.map Prod.snd) ∧
    ((removeScrollLimits elSimple).styleSet "position"
        "relative").styleSet "display" "block" =
      ((removeScrollLimits elSimple).styleSet "position"
        "relative").styleSet "display" "block" :=
  ⟨cloneAndAddToDOM_offscreen_default.1 docEmpty (.byHandle (some elSimple))
    ⟨none, none⟩ dataSimple docAfterSimple rfl trivial rfl, rfl⟩

/-- C10: an options record carrying an explicit `position` key with an
undefined value — unlike a missing key — cancels the off-screen default
of `cloneAndAddToDOM`: the caller's options are spread over the default,
so no placement styles at all are applied to the inserted clone. -/
theorem cloneAndAddToDOM_undefined_position_cancels (d : Doc)
    (t : ElementTarget) (o : CloneOptions) (el : Elem)
    (data : ClonedElementData) (d₂ : Doc)
    (hres : resolveTarget d t = some el) (hpos : o.position = some none)
    (h : cloneAndAddToDOM d t o = .ok (data, d₂)) :
    data.element = applyStylesOpt (removeScrollLimits el) o.styles := by
  have hce : cloneElement d t (spreadDefault o) =
      .ok (applyStylesOpt (applyPositionOpt (removeScrollLimits el)
        (spreadDefault o).position) o.styles) := by
    rw [cloneElement, hres]; exact rfl
  have hsp : (spreadDefault o).position = some none := by
    simp [spreadDefault, hpos]
  rw [hsp] at hce
  rw [cloneAndAddToDOM, hce] at h
  simp only [Except.ok.injEq, Prod.mk.injEq] at h
  obtain ⟨hdata, -⟩ := h
  subst hdata
  rfl

theorem cloneAndAddToDOM_undefined_position_cancels_witness :
    dataNoPlacement.element =
      applyStylesOpt (removeScrollLimits elSimple) none :=
  cloneAndAddToDOM_undefined_position_cancels docEmpty
    (.byHandle (some elSimple)) ⟨some none, none⟩ elSimple dataNoPlacement
    (appendToBody docEmpty (removeScrollLimits elSimple)) rfl rfl rfl

/-- C9: `removeScrollLimits` modifies only the three scroll-limit style
properties on each node it visits: tag, attributes, intrinsic content,
the subtree shape (children and their order, recursively) and every
other style property are exactly as they were before the call. -/
theorem removeScrollLimits_changes_only_scroll_styles (e : Elem) :
    OnlyScrollStyleChanges e (removeScrollLimits e) := by
  induction e using Elem.inductionOn with
  | step t a s w h cs ih =>
    rw [removeScrollLimits_mk]
    refine OnlyScrollStyleChanges.mk t a s _ w h cs _ ?_ ?_
    · intro k h1 h2 h3
      rw [styleLookup_assign_other _ _ _ _ h2,
          styleLookup_assign_other _ _ _ _ h3,
          styleLookup_assign_other _ _ _ _ h1]
    · rw [List.forall₂_map_right_iff]
      exact List.forall₂_same.mpr ih

theorem styleGet_removeScrollLimits_maxHeight (e : Elem) :
    (removeScrollLimits e).styleGet "maxHeight" = some "unset" := by
  cases e with
  | mk t a s w h cs =>
    rw [removeScrollLimits_mk]
    simp only [Elem.styleGet, Elem.style]
    rw [styleLookup_assign_other _ _ _ _ (by decide),
        styleLookup_assign_other _ _ _ _ (by decide),
        styleLookup_assign_self]

theorem boxHeight_removeScrollLimits (e : Elem) :
    boxHeight (removeScrollLimits e) = unclippedHeight e := by
  induction e using Elem.inductionOn with
  | step t a s w h cs ih =>
    have hmh : computedValue (removeScrollLimits (.mk t a s w h cs))
        "maxHeight" "none" = "none" := by
      rw [computedValue, styleGet_removeScrollLimits_maxHeight]
      simp
    rw [removeScrollLimits_mk] at hmh ⊢
    rw [boxHeight_mk, hmh]
    have hpx : parsePx "none" = (none : Option Nat) := rfl
    rw [hpx]
    show h + ((cs.map removeScrollLimits).map boxHeight).sum =
      unclippedHeight (.mk t a s w h cs)
    rw [unclippedHeight_mk, List.map_map]
    exact congrArg (h + ·) (congrArg List.sum
      (List.map_congr_left (fun c hc => ih c hc)))

theorem scrollHeightOf_removeScrollLimits (e : Elem) :
    scrollHeightOf (removeScrollLimits e) = unclippedHeight e := by
  cases e with
  | mk t a s w h cs =>
    rw [removeScrollLimits_mk, unclippedHeight_mk]
    show h + boxHeightSum (cs.map removeScrollLimits) =
      h + (cs.map unclippedHeight).sum
    rw [boxHeightSum_eq_map, List.map_map]
    exact congrArg (h + ·) (congrArg List.sum
      (List.map_congr_left (fun c _ => boxHeight_removeScrollLimits c)))

theorem scrollHeightOf_styleSet (e : Elem) (k v : String) :
    scrollHeightOf (e.styleSet k v) = scrollHeightOf e := by
  cases e with
  | mk t a s w h cs => rfl

theorem scrollHeightOf_applyPositionOpt (e : Elem)
    (p : Option (Option Placement)) :
    scrollHeightOf (applyPositionOpt e p) = scrollHeightOf e := by
  cases p with
  | none => rfl
  | some q =>
    cases q with
    | none => rfl
    | some pl =>
      cases pl <;> simp [applyPositionOpt, scrollHeightOf_styleSet]

/-- C7: for every resolvable original element that is scroll-limited
(bounded max-height with non-visible overflow), a successful
`getFullDimensions` reports a height at least the original element's
unclipped content size — not its clipped box size. -/
theorem getFullDimensions_ge_unclipped (d : Doc) (t : ElementTarget)
    (el : Elem) (dims : ElementDimensions) (d' : Doc)
    (hres : resolveTarget d t = some el) (hlim : scrollLimited el)
    (h : getFullDimensions d t = .ok (dims, d')) :
    unclippedHeight el ≤ dims.height := by
  have hce : cloneElement d t ⟨some (some .offScreen), none⟩ =
      .ok (applyPositionOpt (removeScrollLimits el)
        (some (some .offScreen))) := by
    rw [cloneElement, hres]; exact rfl
  rw [getFullDimensions, hce] at h
  simp only [Except.ok.injEq, Prod.mk.injEq] at h
  obtain ⟨hdims, -⟩ := h
  subst hdims
  show unclippedHeight el ≤ scrollHeightOf _
  rw [scrollHeightOf_applyPositionOpt, scrollHeightOf_removeScrollLimits]

theorem getFullDimensions_ge_unclipped_witness :
    unclippedHeight elLimited ≤ (measureDims cloneLimited).height :=
  getFullDimensions_ge_unclipped docLimited (.byHandle (some elLimited))
    elLimited (measureDims cloneLimited) _ rfl
    ⟨by decide, by decide⟩ rfl

end ElementCloner
